import Mathlib

/-!
# Verification of the tristore Cypher-REPL query engine

A shallow embedding of the query translation and execution engine of the
`tristore` repository (files `cypherrepl/cypher.py` and `cypherrepl/db.py`).
Text is modelled as `List Char`; Python string primitives (`strip`,
`rstrip`, `split`) and the concrete regular expressions used by the source
are translated into executable Lean functions on character lists.
-/

namespace Tristore

/-- Python `\s` / `str.strip()` whitespace, restricted to the ASCII range
(the only characters the engine's inputs use). -/
def pyIsSpace (c : Char) : Bool :=
  c = ' ' || c = '\t' || c = '\n' || c = '\r' || c = '\x0b' || c = '\x0c'

/-- Python `\w`: ASCII letters, digits and underscore. -/
def isWordChar (c : Char) : Bool :=
  c.isAlphanum || c = '_'

/-- Python `str.lstrip()`: drop leading whitespace. -/
def lstripWs (l : List Char) : List Char := l.dropWhile pyIsSpace

/-- Python `str.rstrip()`: drop trailing whitespace. -/
def rstripWs (l : List Char) : List Char := (l.reverse.dropWhile pyIsSpace).reverse

/-- Python `str.strip()`. -/
def pyStrip (l : List Char) : List Char := rstripWs (lstripWs l)

/-- Python `str.rstrip(";")`: drop all trailing semicolons. -/
def rstripSemi (l : List Char) : List Char := (l.reverse.dropWhile (· = ';')).reverse

/-- Python `str.split(sep)` for a one-character separator: splits at every
occurrence of `sep`, keeping empty pieces (`"".split(";") == [""]`). -/
def pySplit (sep : Char) : List Char → List (List Char)
  | [] => [[]]
  | c :: cs =>
    if c = sep then [] :: pySplit sep cs
    else
      match pySplit sep cs with
      | [] => [[c]]
      | p :: ps => (c :: p) :: ps

/-- Case-insensitive match of `pat` (given in lowercase) against an initial
segment of `l`, as executed by an `re.IGNORECASE` literal. -/
def caselessAt (pat : List Char) (l : List Char) : Bool :=
  match pat, l with
  | [], _ => true
  | _ :: _, [] => false
  | p :: ps, c :: cs => p = c.toLower && caselessAt ps cs

/-- `cypher.py` line 5: `preprocess_cypher_query` — strip surrounding
whitespace, then all trailing semicolons. -/
def preprocess_cypher_query (q : List Char) : List Char :=
  rstripSemi (pyStrip q)

/-- `cypher.py` line 10: `split_cypher_statements` — split on `;`, strip each
piece, drop pieces that are empty after stripping. -/
def split_cypher_statements (q : List Char) : List (List Char) :=
  ((pySplit ';' q).map pyStrip).filter (fun l => l ≠ [])

/-!
## The RETURN-clause regex of `parse_return_clause`

Source pattern (IGNORECASE, DOTALL):
`\bRETURN\s+(.+?)(?:\s+(?:ORDER|LIMIT|SKIP|UNION)|$)`
-/

/-- One of the clause-terminating keywords starts here (no trailing word
boundary in the source pattern). -/
def termKwAt (l : List Char) : Bool :=
  caselessAt ("order".toList) l || caselessAt ("limit".toList) l ||
  caselessAt ("skip".toList) l || caselessAt ("union".toList) l

/-- `\s+(?:ORDER|LIMIT|SKIP|UNION)`: at least one whitespace character
followed by a terminating keyword. -/
def wsThenKw : List Char → Bool
  | [] => false
  | c :: cs => if pyIsSpace c then termKwAt cs || wsThenKw cs else false

/-- The suffix after the captured clause satisfies
`(?:\s+(?:ORDER|LIMIT|SKIP|UNION)|$)`; Python `$` (without MULTILINE)
accepts end of string or a final newline. -/
def retTermAt (rest : List Char) : Bool :=
  wsThenKw rest || rest = [] || rest = ['\n']

/-- Match `\s+(.+?)(?:…|$)` against the text following `RETURN`, honouring
the backtracking order of the Python engine: the greedy `\s+` tries the
longest whitespace run first, and for each choice the lazy capture grows
from one character up.  Returns the captured group. -/
def findRetCapture (afterKw : List Char) : Option (List Char) :=
  let wmax := (afterKw.takeWhile pyIsSpace).length
  (List.range wmax).findSome? fun d =>
    let tl := afterKw.drop (wmax - d)
    (List.range tl.length).findSome? fun j =>
      if retTermAt (tl.drop (j + 1)) then some (tl.take (j + 1)) else none

/-- Scan for the leftmost position with a word boundary followed by
case-insensitive `RETURN` where the rest of the pattern matches.  The
`Bool` argument records whether the previous character was a word
character (`\b` holds iff it was not). -/
def searchReturnGo : Bool → List Char → Option (List Char)
  | _, [] => none
  | prevWord, c :: cs =>
    if !prevWord && caselessAt ("return".toList) (c :: cs) then
      match findRetCapture ((c :: cs).drop 6) with
      | some cap => some cap
      | none => searchReturnGo (isWordChar c) cs
    else searchReturnGo (isWordChar c) cs

/-- `re.search` of the RETURN-clause pattern: leftmost successful start. -/
def searchReturn (s : List Char) : Option (List Char) :=
  searchReturnGo false s

/-!
## The per-item regexes of `parse_return_clause`

Alias pattern `\s+AS\s+(\w+)` and first-token pattern `(\w+)`.
-/

/-- `\s+(\w+)` after the `AS` keyword: at least one whitespace character,
then the greedy maximal word-character run (the captured alias). -/
def wsThenWord : List Char → Option (List Char)
  | [] => none
  | c :: cs =>
    if pyIsSpace c then
      let w := cs.takeWhile isWordChar
      if w = [] then wsThenWord cs else some w
    else none

/-- Scan for the leftmost match of `\s+AS\s+(\w+)` (IGNORECASE); since `A`
is not whitespace the `\s+` run must end exactly where `AS` starts, so it
suffices to look for `AS` preceded by a whitespace character. -/
def findAliasGo : Bool → List Char → Option (List Char)
  | _, [] => none
  | prevWs, c :: cs =>
    if prevWs && caselessAt ("as".toList) (c :: cs) then
      match wsThenWord ((c :: cs).drop 2) with
      | some w => some w
      | none => findAliasGo (pyIsSpace c) cs
    else findAliasGo (pyIsSpace c) cs

/-- `re.search(r"\s+AS\s+(\w+)", item, re.IGNORECASE)`, returning the
captured identifier. -/
def findAlias (item : List Char) : Option (List Char) :=
  findAliasGo false item

/-- `re.search(r"(\w+)", item)`: the first maximal word-character run. -/
def firstToken : List Char → Option (List Char)
  | [] => none
  | c :: cs =>
    if isWordChar c then some (c :: cs.takeWhile isWordChar)
    else firstToken cs

/-- Column-name resolution for the `i`-th (0-based) projection item:
explicit alias, else first token, else synthesized `col{i+1}`
(`cypher.py` lines 29–35). -/
def colNameFor (i : Nat) (item : List Char) : List Char :=
  match findAlias item with
  | some a => a
  | none =>
    match firstToken item with
    | some t => t
    | none => "col".toList ++ (Nat.repr (i + 1)).toList

/-- Python `", ".join`. -/
def joinComma : List (List Char) → List Char
  | [] => []
  | [x] => x
  | x :: xs => x ++ (", ".toList) ++ joinComma xs

/-- `f"({', '.join(cols)})"` with `cols = [f"{name} agtype", …]`. -/
def fmtCols (names : List (List Char)) : List Char :=
  '(' :: (joinComma (names.map (fun n => n ++ " agtype".toList)) ++ [')'])

/-- `cypher.py` line 15: `parse_return_clause` — infer the AGE column
definition from the RETURN clause, falling back to `default_cols` when no
RETURN clause is found or it has a single item. -/
def parse_return_clause (query : List Char) (default_cols : List Char) : List Char :=
  let q := pyStrip query
  match searchReturn q with
  | none => default_cols
  | some cap =>
    let clause := pyStrip cap
    let items := (pySplit ',' clause).map pyStrip
    if items.length = 1 then default_cols
    else fmtCols (items.enum.map (fun p => colNameFor p.1 p.2))

/-!
## The sanitizer regexes of `sanitize_llm_query_maybe_wrapped`

Source patterns (IGNORECASE, DOTALL):
`_SQL_WRAPPER_RE = SELECT\s+\*\s+FROM\s+cypher\([^$]*\$\$\s*(?P<cypher>.+?)\s*\$\$\)\s+AS\s*\([^)]+\);?`
`_CYPHER_FN_RE  = cypher\([^$]*\$\$\s*(?P<cypher>.+?)\s*\$\$\)\s*;?`
-/

/-- `\s*\$\$\)`: an (irrelevantly greedy, since `$` is not whitespace) run
of whitespace followed by the closing `$$)`. -/
def dollarClose : List Char → Bool
  | '$' :: '$' :: ')' :: _ => true
  | c :: cs => if pyIsSpace c then dollarClose cs else false
  | [] => false

/-- `\s+`: consume at least one whitespace character greedily and return
the rest; `none` when the first character is not whitespace.  The greedy
run cannot backtrack usefully here because every token that follows a
`\s+` in the source patterns starts with a non-whitespace character. -/
def wsPlus : List Char → Option (List Char)
  | [] => none
  | c :: cs => if pyIsSpace c then some (cs.dropWhile pyIsSpace) else none

/-- The tail `\s*\$\$\)\s+AS\s*\([^)]+\);?` of the SQL wrapper pattern,
checked at a candidate end position of the lazy body. -/
def wrapperClose (l : List Char) : Bool :=
  match l.dropWhile pyIsSpace with
  | '$' :: '$' :: ')' :: r =>
    match wsPlus r with
    | some r1 =>
      caselessAt ("as".toList) r1 &&
        (match (r1.drop 2).dropWhile pyIsSpace with
         | '(' :: r4 =>
           let run := r4.takeWhile (fun c => c ≠ ')')
           decide (1 ≤ run.length) && decide (r4.drop run.length ≠ [])
         | _ => false)
    | none => false
  | _ => false

/-- Match `\s*(.+?)` against the text following the opening `$$`, with the
given closing-tail test: the greedy `\s*` tries the longest whitespace run
first, and for each choice the lazy body grows from one character up.
Returns the captured body. -/
def findBody (close : List Char → Bool) (afterDD : List Char) : Option (List Char) :=
  let wmax := (afterDD.takeWhile pyIsSpace).length
  (List.range (wmax + 1)).findSome? fun d =>
    let tl := afterDD.drop (wmax - d)
    (List.range tl.length).findSome? fun j =>
      if close (tl.drop (j + 1)) then some (tl.take (j + 1)) else none

/-- `cypher\([^$]*\$\$` then the body: after the literal `cypher(`, the
greedy `[^$]*` runs to the first `$` (it cannot backtrack, since giving a
character back would require it to match `\$`), which must start `$$`. -/
def matchCypherCallAt (close : List Char → Bool) (l : List Char) : Option (List Char) :=
  if caselessAt ("cypher(".toList) l then
    let rest := l.drop 7
    match rest.drop ((rest.takeWhile (fun c => c ≠ '$')).length) with
    | '$' :: '$' :: afterDD => findBody close afterDD
    | _ => none
  else none

/-- `re.search` of `_CYPHER_FN_RE`: try every start position left to
right.  (The trailing `\s*;?` of the pattern always matches and is
dropped.) -/
def searchCypherFn : List Char → Option (List Char)
  | [] => none
  | c :: cs =>
    match matchCypherCallAt dollarClose (c :: cs) with
    | some b => some b
    | none => searchCypherFn cs

/-- Match `_SQL_WRAPPER_RE` at one start position:
`SELECT\s+\*\s+FROM\s+` then the cypher call with the wrapper tail. -/
def matchWrapperAt (l : List Char) : Option (List Char) :=
  if caselessAt ("select".toList) l then
    match wsPlus (l.drop 6) with
    | some ('*' :: r1) =>
      match wsPlus r1 with
      | some r2 =>
        if caselessAt ("from".toList) r2 then
          match wsPlus (r2.drop 4) with
          | some r3 => matchCypherCallAt wrapperClose r3
          | none => none
        else none
      | none => none
    | _ => none
  else none

/-- `re.search` of `_SQL_WRAPPER_RE`: leftmost successful start. -/
def searchWrapper : List Char → Option (List Char)
  | [] => none
  | c :: cs =>
    match matchWrapperAt (c :: cs) with
    | some b => some b
    | none => searchWrapper cs

/-- `cypher.py` line 51: `sanitize_llm_query_maybe_wrapped` — if the input
matches the SQL wrapper or the bare `cypher(...)` call, extract the
dollar-quoted body (stripped, trailing semicolons removed); otherwise
return the stripped input with trailing semicolons removed. -/
def sanitize_llm_query_maybe_wrapped (q : List Char) : List Char :=
  let s := pyStrip q
  match searchWrapper s with
  | some m => rstripSemi (pyStrip m)
  | none =>
    match searchCypherFn s with
    | some m => rstripSemi (pyStrip m)
    | none => rstripSemi s

/-!
## The execution coordinator (`db.py`)

The psycopg2 cursor/connection pair is abstracted as a pure bridge
function from the SQL text sent by `cur.execute` to either the fetched
rows or the raised exception's message.  Each run also produces an event
log recording every bridge invocation, commit and rollback, in order.
-/

/-- One observable side effect on the database session. -/
inductive Ev
  | call (sql : List Char)
  | commit
  | rollback
deriving DecidableEq, Repr

/-- The `Tuple[bool, Any]` convention of `db.py`: `(True, rows)` on
success, `(False, message)` on failure.  `ρ` is the row type. -/
inductive Outcome (ρ : Type)
  | success (rows : List ρ)
  | failure (msg : List Char)
deriving DecidableEq, Repr

/-- The two `Settings` fields the engine reads (`config.py`; the
repository fixes `default_cols = "(result agtype)"`). -/
structure Settings where
  graph_name : List Char
  default_cols : List Char
deriving DecidableEq, Repr

/-- `f"SELECT * FROM cypher('{graph}', $$ {clean} $$) AS {colDef};"`. -/
def mkSql (graph clean colDef : List Char) : List Char :=
  "SELECT * FROM cypher('".toList ++ graph ++ "', $$ ".toList ++ clean ++
    " $$) AS ".toList ++ colDef ++ [';']

/-- `str(e).split("\n")[0]`: the first line of an error message. -/
def firstLine (e : List Char) : List Char := e.takeWhile (fun c => c ≠ '\n')

/-- A bridge: the behaviour of `cur.execute` + `fetchall` as a function of
the SQL text — rows on success, the exception message on failure. -/
def Bridge (ρ : Type) := List Char → Except (List Char) (List ρ)

deriving instance DecidableEq for Except

/-- `db.py` line 30: `execute_single_cypher_statement` — sanitize, infer
the column definition, invoke the bridge; on failure with a non-default
column definition, roll back and retry once with the default; classify
the final exception as a one-line `Failure`. -/
def execute_single_cypher_statement {ρ : Type} (bridge : Bridge ρ)
    (query : List Char) (s : Settings) : Outcome ρ × List Ev :=
  let clean := sanitize_llm_query_maybe_wrapped (preprocess_cypher_query query)
  if clean = [] then (.success [], [])
  else
    let col_def := parse_return_clause clean s.default_cols
    let sql := mkSql s.graph_name clean col_def
    match bridge sql with
    | .ok rows => (.success rows, [.call sql, .commit])
    | .error e =>
      if col_def ≠ s.default_cols then
        let sql2 := mkSql s.graph_name clean s.default_cols
        match bridge sql2 with
        | .ok rows => (.success rows, [.call sql, .rollback, .call sql2, .commit])
        | .error e2 =>
          (.failure ("Cypher error: ".toList ++ firstLine e2),
           [.call sql, .rollback, .call sql2, .rollback])
      else (.failure ("Cypher error: ".toList ++ firstLine e), [.call sql, .rollback])

/-- The `for` loop of `execute_cypher_with_smart_columns` (lines 82–91):
run statements in order, accumulating rows and events; stop at the first
failure and return it. -/
def smartColumnsLoop {ρ : Type} (bridge : Bridge ρ) (s : Settings) :
    List (List Char) → List ρ → List Ev → Outcome ρ × List Ev
  | [], acc, log => (.success acc, log)
  | stmt :: rest, acc, log =>
    match execute_single_cypher_statement bridge stmt s with
    | (.success rows, ev) => smartColumnsLoop bridge s rest (acc ++ rows) (log ++ ev)
    | (.failure msg, ev) => (.failure msg, log ++ ev)

/-- `db.py` line 75: `execute_cypher_with_smart_columns` — split the input
into statements; empty list yields `Success([])`, a single statement is
delegated directly, several statements run through the fail-fast loop. -/
def execute_cypher_with_smart_columns {ρ : Type} (bridge : Bridge ρ)
    (query : List Char) (s : Settings) : Outcome ρ × List Ev :=
  match split_cypher_statements query with
  | [] => (.success [], [])
  | [stmt] => execute_single_cypher_statement bridge stmt s
  | stmts => smartColumnsLoop bridge s stmts [] []

/-!
## Derived views used by the theorems
-/

/-- The sanitized query text produced inside `execute_single_cypher_statement`. -/
def cleanOf (q : List Char) : List Char :=
  sanitize_llm_query_maybe_wrapped (preprocess_cypher_query q)

/-- The inferred column definition for a raw query. -/
def colDefOf (q : List Char) (s : Settings) : List Char :=
  parse_return_clause (cleanOf q) s.default_cols

/-- The first SQL text sent to the bridge for a raw query. -/
def sqlOf (q : List Char) (s : Settings) : List Char :=
  mkSql s.graph_name (cleanOf q) (colDefOf q s)

/-- The retry SQL text: same sanitized query, default column definition. -/
def sqlDefOf (q : List Char) (s : Settings) : List Char :=
  mkSql s.graph_name (cleanOf q) s.default_cols

/-- The bridge invocations recorded in an event log, in order. -/
def callsOf (evs : List Ev) : List (List Char) :=
  evs.filterMap fun e => match e with | .call sql => some sql | _ => none

/-- Whether an outcome is a success. -/
def isSuccessO {ρ : Type} : Outcome ρ → Bool
  | .success _ => true
  | .failure _ => false

/-- The rows a single statement yields (empty for a failure). -/
def rowsOf {ρ : Type} (bridge : Bridge ρ) (s : Settings) (stmt : List Char) : List ρ :=
  match (execute_single_cypher_statement bridge stmt s).1 with
  | .success r => r
  | .failure _ => []

/-- The event log a single statement produces. -/
def evOf {ρ : Type} (bridge : Bridge ρ) (s : Settings) (stmt : List Char) : List Ev :=
  (execute_single_cypher_statement bridge stmt s).2

/-- The schema-inference branch of `parse_return_clause` that builds a
column list (a RETURN clause was found and it does not have exactly one
item). -/
def inferredCase (q : List Char) : Prop :=
  ∃ cap, searchReturn (pyStrip q) = some cap ∧
    ((pySplit ',' (pyStrip cap)).map pyStrip).length ≠ 1

/-!
## Concrete fixtures used by witnesses
-/

/-- A settings value with the repository's fixed default column definition
(`config.py` line 107). -/
def sFix : Settings := ⟨"g".toList, "(result agtype)".toList⟩

/-- A two-column query for the retry scenario. -/
def q1 : List Char := "MATCH (n) RETURN a, b".toList

/-- A mocked bridge that fails for the inferred two-column schema and
succeeds for the default schema. -/
def bridge1 : Bridge Nat := fun sql =>
  if sql = sqlDefOf q1 sFix then .ok [42] else .error ("schema mismatch".toList)

/-- A three-statement batch. -/
def qB : List Char := "CREATE (a); CREATE (b); CREATE (c)".toList

/-- Second statement of the batch `qB`. -/
def stB : List Char := "CREATE (b)".toList

/-- A mocked bridge that fails exactly on the second statement of `qB`. -/
def bridgeB : Bridge Nat := fun sql =>
  if sql = sqlOf stB sFix then .error ("boom on B".toList) else .ok [7]

/-- A bridge that always succeeds with no rows. -/
def okBridge : Bridge Nat := fun _ => .ok []

/-- An input that sanitizes to the empty string although it is not made of
whitespace and terminators only: the extracted dollar-quoted body is `;`. -/
def q8 : List Char := "cypher(a$$;$$)".toList

end Tristore

namespace Tristore

/-!
## Helper lemmas
-/

theorem rstripSemi_idem (l : List Char) : rstripSemi (rstripSemi l) = rstripSemi l := by
  simp [rstripSemi, List.reverse_reverse, List.dropWhile_idempotent]

theorem sanitize_rstripSemi (x : List Char) :
    rstripSemi (sanitize_llm_query_maybe_wrapped x) = sanitize_llm_query_maybe_wrapped x := by
  simp only [sanitize_llm_query_maybe_wrapped]
  cases h1 : searchWrapper (pyStrip x) with
  | some m => simp only [h1]; exact rstripSemi_idem _
  | none =>
    simp only [h1]
    cases h2 : searchCypherFn (pyStrip x) with
    | some m => simp only [h2]; exact rstripSemi_idem _
    | none => simp only [h2]; exact rstripSemi_idem _

theorem rstripSemi_exists_replicate (l : List Char) :
    ∃ k, l = rstripSemi l ++ List.replicate k ';' := by
  have hdecomp : l = rstripSemi l ++ (l.reverse.takeWhile (fun c => c = ';')).reverse := by
    conv_lhs => rw [← List.reverse_reverse l,
      ← List.takeWhile_append_dropWhile (fun c => c = ';') l.reverse]
    rw [List.reverse_append]
    rfl
  refine ⟨(l.reverse.takeWhile (fun c => c = ';')).reverse.length, ?_⟩
  conv_lhs => rw [hdecomp]
  congr 1
  apply List.eq_replicate_of_mem
  intro b hb
  rw [List.mem_reverse] at hb
  exact of_decide_eq_true
    (List.mem_takeWhile_imp (p := fun c => decide (c = ';')) (l := l.reverse) hb)

theorem dropWhile_head_false {p : Char → Bool} {l : List Char} {a : Char} {as : List Char}
    (h : l.dropWhile p = a :: as) : p a = false := by
  induction l with
  | nil => simp at h
  | cons c cs ih =>
    rw [List.dropWhile_cons] at h
    by_cases hp : p c
    · rw [if_pos hp] at h; exact ih h
    · rw [if_neg hp] at h
      cases h
      simpa using hp

theorem rstripSemi_ne_concat (l l2 : List Char) : rstripSemi l ≠ l2 ++ [';'] := by
  intro h
  have h1 : (rstripSemi l).getLast? = some ';' := by rw [h]; exact List.getLast?_concat l2
  rw [rstripSemi, List.getLast?_reverse] at h1
  cases hd : l.reverse.dropWhile (fun c => c = ';') with
  | nil => rw [hd] at h1; simp at h1
  | cons a as =>
    rw [hd] at h1
    simp only [List.head?_cons, Option.some.injEq] at h1
    have := dropWhile_head_false hd
    rw [h1] at this
    simp at this

theorem mem_of_mem_dropWhile {p : Char → Bool} {c : Char} {l : List Char}
    (h : c ∈ l.dropWhile p) : c ∈ l :=
  (List.dropWhile_sublist p).mem h

theorem mem_of_mem_pyStrip {c : Char} {l : List Char} (h : c ∈ pyStrip l) : c ∈ l := by
  unfold pyStrip rstripWs lstripWs at h
  rw [List.mem_reverse] at h
  have h2 := mem_of_mem_dropWhile h
  rw [List.mem_reverse] at h2
  exact mem_of_mem_dropWhile h2

theorem pyStrip_eq_nil {l : List Char} (h : ∀ c ∈ l, pyIsSpace c = true) : pyStrip l = [] := by
  unfold pyStrip lstripWs rstripWs
  rw [List.dropWhile_eq_nil_iff.mpr h]
  rfl

theorem pySplit_ne_nil (sep : Char) (l : List Char) : pySplit sep l ≠ [] := by
  cases l with
  | nil => simp [pySplit]
  | cons c cs =>
    rw [pySplit]
    by_cases h : c = sep
    · simp [h]
    · rw [if_neg h]
      cases pySplit sep cs <;> simp

theorem pySplit_mem {sep : Char} :
    ∀ {l p : List Char}, p ∈ pySplit sep l → ∀ c ∈ p, c ∈ l ∧ c ≠ sep := by
  intro l
  induction l with
  | nil =>
    intro p hp c hc
    simp [pySplit] at hp
    subst hp
    simp at hc
  | cons a as ih =>
    intro p hp c hc
    rw [pySplit] at hp
    by_cases ha : a = sep
    · rw [if_pos ha] at hp
      rcases List.mem_cons.mp hp with h | h
      · subst h; simp at hc
      · have := ih h c hc
        exact ⟨List.mem_cons_of_mem a this.1, this.2⟩
    · rw [if_neg ha] at hp
      cases hsplit : pySplit sep as with
      | nil => exact absurd hsplit (pySplit_ne_nil sep as)
      | cons p0 ps =>
        rw [hsplit] at hp
        rcases List.mem_cons.mp hp with h | h
        · subst h
          rcases List.mem_cons.mp hc with h | h
          · subst h; exact ⟨List.mem_cons_self _ _, ha⟩
          · have hp0 : p0 ∈ pySplit sep as := by rw [hsplit]; exact List.mem_cons_self _ _
            have := ih hp0 c h
            exact ⟨List.mem_cons_of_mem a this.1, this.2⟩
        · have hps : p ∈ pySplit sep as := by rw [hsplit]; exact List.mem_cons_of_mem _ h
          have := ih hps c hc
          exact ⟨List.mem_cons_of_mem a this.1, this.2⟩

theorem split_all_ws {q : List Char} (h : ∀ c ∈ q, pyIsSpace c = true ∨ c = ';') :
    split_cypher_statements q = [] := by
  unfold split_cypher_statements
  rw [List.filter_eq_nil_iff]
  intro a ha
  rcases List.mem_map.mp ha with ⟨piece, hpiece, rfl⟩
  simp only [ne_eq, decide_not, Bool.not_eq_true', decide_eq_false_iff_not, not_not]
  apply pyStrip_eq_nil
  intro c hc
  have hcq := pySplit_mem hpiece c hc
  rcases h c hcq.1 with hws | hsemi
  · exact hws
  · exact absurd hsemi hcq.2

/-!
## Claim theorems
-/

/-- C3, counterexample: the sanitizer is not idempotent.  On `"a ;"`
neither pattern matches, so the fallback strips the trailing `;` but not
the whitespace before it, giving `"a "`; a second application strips that
whitespace and gives `"a"`. -/
theorem sanitize_not_idem_cex :
    sanitize_llm_query_maybe_wrapped (sanitize_llm_query_maybe_wrapped ("a ;".toList)) ≠
      sanitize_llm_query_maybe_wrapped ("a ;".toList) := by decide

/-- C3, amended: the sanitizer is idempotent on every input whose
sanitized form is already clean, i.e. equals its own trim and matches
neither the SQL-wrapper pattern nor the bare cypher-call pattern. -/
theorem sanitize_idem_on_clean (x : List Char)
    (h1 : pyStrip (sanitize_llm_query_maybe_wrapped x) = sanitize_llm_query_maybe_wrapped x)
    (h2 : searchWrapper (sanitize_llm_query_maybe_wrapped x) = none)
    (h3 : searchCypherFn (sanitize_llm_query_maybe_wrapped x) = none) :
    sanitize_llm_query_maybe_wrapped (sanitize_llm_query_maybe_wrapped x) =
      sanitize_llm_query_maybe_wrapped x := by
  set y := sanitize_llm_query_maybe_wrapped x with hy
  simp only [sanitize_llm_query_maybe_wrapped]
  rw [h1, h2, h3]
  have h4 := sanitize_rstripSemi x
  rw [← hy] at h4
  exact h4

/-- Witness for C3 (amended): a concrete already-clean input. -/
theorem sanitize_idem_on_clean_witness :
    sanitize_llm_query_maybe_wrapped
        (sanitize_llm_query_maybe_wrapped ("MATCH (n) RETURN n".toList)) =
      sanitize_llm_query_maybe_wrapped ("MATCH (n) RETURN n".toList) :=
  sanitize_idem_on_clean ("MATCH (n) RETURN n".toList) (by decide) (by decide) (by decide)

/-- C4, counterexample: on the pattern-free input `"a;;"` the fallback
strips *all* trailing terminators (result `"a"`), not exactly one (which
would give `"a;"`). -/
theorem sanitize_single_semi_cex :
    searchWrapper (pyStrip ("a;;".toList)) = none ∧
    searchCypherFn (pyStrip ("a;;".toList)) = none ∧
    sanitize_llm_query_maybe_wrapped ("a;;".toList) = "a".toList ∧
    "a".toList ≠ "a;".toList := by
  refine ⟨by decide, by decide, by decide, by decide⟩

/-- C4, amended: on every input the sanitizer strips *all* trailing
terminators from the trimmed input (no-match case) or from the trimmed
extracted body (match cases); in every case the result never ends in a
terminator. -/
theorem sanitize_strips_all_semis (x : List Char) :
    (searchWrapper (pyStrip x) = none → searchCypherFn (pyStrip x) = none →
      ∃ k, pyStrip x = sanitize_llm_query_maybe_wrapped x ++ List.replicate k ';') ∧
    (∀ m, searchWrapper (pyStrip x) = some m →
      ∃ k, pyStrip m = sanitize_llm_query_maybe_wrapped x ++ List.replicate k ';') ∧
    (∀ m, searchWrapper (pyStrip x) = none → searchCypherFn (pyStrip x) = some m →
      ∃ k, pyStrip m = sanitize_llm_query_maybe_wrapped x ++ List.replicate k ';') ∧
    (∀ l2, sanitize_llm_query_maybe_wrapped x ≠ l2 ++ [';']) := by
  refine ⟨?_, ?_, ?_, ?_⟩
  · intro h1 h2
    simp only [sanitize_llm_query_maybe_wrapped, h1, h2]
    exact rstripSemi_exists_replicate (pyStrip x)
  · intro m h1
    simp only [sanitize_llm_query_maybe_wrapped, h1]
    exact rstripSemi_exists_replicate (pyStrip m)
  · intro m h1 h2
    simp only [sanitize_llm_query_maybe_wrapped, h1, h2]
    exact rstripSemi_exists_replicate (pyStrip m)
  · intro l2 h
    have h4 := sanitize_rstripSemi x
    rw [h] at h4
    exact rstripSemi_ne_concat (l2 ++ [';']) l2 h4

/-- Witness for C4 (amended), at the pattern-free input `"a;;"`. -/
theorem sanitize_strips_all_semis_witness :
    ∃ k, pyStrip ("a;;".toList) =
      sanitize_llm_query_maybe_wrapped ("a;;".toList) ++ List.replicate k ';' :=
  (sanitize_strips_all_semis ("a;;".toList)).1 (by decide) (by decide)

/-- C7: the splitter returns the `;`-separated pieces, each trimmed, with
pieces that are empty after trimming dropped, in order; an input of
whitespace and terminators only yields the empty sequence. -/
theorem split_statements_spec (q : List Char) :
    split_cypher_statements q = ((pySplit ';' q).map pyStrip).filter (fun l => l ≠ []) ∧
    ((∀ c ∈ q, pyIsSpace c = true ∨ c = ';') → split_cypher_statements q = []) :=
  ⟨rfl, fun h => split_all_ws h⟩

/-- Witness for C7, on a concrete mixed input and an all-blank input. -/
theorem split_statements_spec_witness :
    split_cypher_statements (" ; ;; ".toList) = [] :=
  (split_statements_spec (" ; ;; ".toList)).2 (by decide)

/-- C10: no statement produced by the splitter contains a terminator
character anywhere. -/
theorem split_statements_no_semi (q st : List Char)
    (h : st ∈ split_cypher_statements q) : ';' ∉ st := by
  intro hc
  unfold split_cypher_statements at h
  have hmap := List.mem_of_mem_filter h
  rcases List.mem_map.mp hmap with ⟨piece, hpiece, rfl⟩
  have hcp : (';' : Char) ∈ piece := mem_of_mem_pyStrip hc
  exact (pySplit_mem hpiece ';' hcp).2 rfl

/-- Witness for C10 on a concrete two-statement input. -/
theorem split_statements_no_semi_witness :
    ';' ∉ ("MATCH (a) RETURN a".toList) :=
  split_statements_no_semi ("MATCH (a) RETURN a; MATCH (b) RETURN b".toList)
    ("MATCH (a) RETURN a".toList) (by decide)

theorem comma_mem_fmtCols {names : List (List Char)} (h : 2 ≤ names.length) :
    ',' ∈ fmtCols names := by
  rcases names with _ | ⟨a, _ | ⟨b, t⟩⟩
  · simp at h
  · simp at h
  · simp [fmtCols, joinComma, List.mem_append]

theorem items_length_pos (l : List Char) :
    1 ≤ ((pySplit ',' l).map pyStrip).length := by
  rw [List.length_map]
  exact List.length_pos.mpr (pySplit_ne_nil ',' l)

/-- C6: when no RETURN clause is found, or the clause has exactly one
comma-separated item, the inferencer returns the default schema. -/
theorem infer_schema_default_cases (q dc : List Char) :
    (searchReturn (pyStrip q) = none → parse_return_clause q dc = dc) ∧
    (∀ cap, searchReturn (pyStrip q) = some cap →
      ((pySplit ',' (pyStrip cap)).map pyStrip).length = 1 →
      parse_return_clause q dc = dc) := by
  constructor
  · intro h
    simp only [parse_return_clause, h]
  · intro cap h h1
    simp only [parse_return_clause, h]
    rw [if_pos h1]

/-- Witness for C6: the spec's single-item example and a clause-free
statement. -/
theorem infer_schema_default_cases_witness :
    parse_return_clause ("MATCH (p:Person) RETURN count(p)".toList)
        ("(result agtype)".toList) = "(result agtype)".toList ∧
    parse_return_clause ("CREATE (n)".toList) ("(result agtype)".toList) =
      "(result agtype)".toList :=
  ⟨(infer_schema_default_cases _ _).2 ("count(p)".toList) (by decide) (by decide),
   (infer_schema_default_cases _ _).1 (by decide)⟩

/-- C5: with a RETURN clause of two or more comma-separated items, the
inferencer builds one column per item, in item order, with the name
resolved by the priority alias → first identifier token → `col<N>`. -/
theorem infer_schema_multi (q dc cap : List Char)
    (hcap : searchReturn (pyStrip q) = some cap)
    (hn : 2 ≤ ((pySplit ',' (pyStrip cap)).map pyStrip).length) :
    parse_return_clause q dc =
      fmtCols ((((pySplit ',' (pyStrip cap)).map pyStrip).enum).map
        fun p => colNameFor p.1 p.2) ∧
    ((((pySplit ',' (pyStrip cap)).map pyStrip).enum).map
        (fun p => colNameFor p.1 p.2)).length =
      ((pySplit ',' (pyStrip cap)).map pyStrip).length ∧
    (∀ i item a, findAlias item = some a → colNameFor i item = a) ∧
    (∀ i item t, findAlias item = none → firstToken item = some t →
      colNameFor i item = t) ∧
    (∀ i item, findAlias item = none → firstToken item = none →
      colNameFor i item = "col".toList ++ (Nat.repr (i + 1)).toList) := by
  refine ⟨?_, ?_, ?_, ?_, ?_⟩
  · simp only [parse_return_clause, hcap]
    rw [if_neg (show ¬ ((pySplit ',' (pyStrip cap)).map pyStrip).length = 1 by omega)]
  · rw [List.length_map, List.enum_length]
  · intro i item a h
    simp [colNameFor, h]
  · intro i item t h h2
    simp [colNameFor, h, h2]
  · intro i item h h2
    simp [colNameFor, h, h2]

/-- Witness for C5: the spec's two-item aliased example yields the
two-column schema `(node agtype, name agtype)`. -/
theorem infer_schema_multi_witness :
    parse_return_clause ("MATCH (n) RETURN n AS node, n.name AS name LIMIT 5".toList)
        ("(result agtype)".toList) =
      fmtCols ((((pySplit ',' (pyStrip ("n AS node, n.name AS name".toList))).map
        pyStrip).enum).map fun p => colNameFor p.1 p.2) ∧
    parse_return_clause ("MATCH (n) RETURN n AS node, n.name AS name LIMIT 5".toList)
        ("(result agtype)".toList) = "(node agtype, name agtype)".toList :=
  ⟨(infer_schema_multi _ _ ("n AS node, n.name AS name".toList)
      (by decide) (by decide)).1, by decide⟩

/-- C9, counterexample: with an adversarial default schema, the inferred
branch can return a value equal to the default, so equality with the
default does not distinguish the two cases for every default schema. -/
theorem infer_schema_eq_default_cex :
    parse_return_clause ("RETURN a, b".toList) ("(a agtype, b agtype)".toList) =
      "(a agtype, b agtype)".toList ∧
    inferredCase ("RETURN a, b".toList) :=
  ⟨by decide, ⟨"a, b".toList, by decide, by decide⟩⟩

/-- C9, amended: the result is either the default schema or a formatted
schema of at least two columns; when the default contains no comma — in
particular the repository's fixed `(result agtype)` — equality with the
default exactly distinguishes the default branch from the inferred
branch. -/
theorem infer_schema_shape (q dc : List Char) :
    (parse_return_clause q dc = dc ∨
      ∃ names, 2 ≤ names.length ∧ parse_return_clause q dc = fmtCols names) ∧
    (',' ∉ dc → (parse_return_clause q dc ≠ dc ↔ inferredCase q)) := by
  constructor
  · cases h : searchReturn (pyStrip q) with
    | none =>
      left
      simp only [parse_return_clause, h]
    | some cap =>
      by_cases h1 : ((pySplit ',' (pyStrip cap)).map pyStrip).length = 1
      · left
        simp only [parse_return_clause, h]
        rw [if_pos h1]
      · right
        refine ⟨(((pySplit ',' (pyStrip cap)).map pyStrip).enum).map
          (fun p => colNameFor p.1 p.2), ?_, ?_⟩
        · have hge := items_length_pos (pyStrip cap)
          rw [List.length_map, List.enum_length]
          omega
        · simp only [parse_return_clause, h]
          rw [if_neg h1]
  · intro hdc
    constructor
    · intro hne
      cases h : searchReturn (pyStrip q) with
      | none =>
        exact absurd (by simp only [parse_return_clause, h]) hne
      | some cap =>
        by_cases h1 : ((pySplit ',' (pyStrip cap)).map pyStrip).length = 1
        · refine absurd ?_ hne
          simp only [parse_return_clause, h]
          rw [if_pos h1]
        · exact ⟨cap, h, h1⟩
    · rintro ⟨cap, h, h1⟩ heq
      have hparse : parse_return_clause q dc =
          fmtCols ((((pySplit ',' (pyStrip cap)).map pyStrip).enum).map
            (fun p => colNameFor p.1 p.2)) := by
        simp only [parse_return_clause, h]
        rw [if_neg h1]
      have hcm : ',' ∈ fmtCols ((((pySplit ',' (pyStrip cap)).map pyStrip).enum).map
          (fun p => colNameFor p.1 p.2)) := by
        apply comma_mem_fmtCols
        have hge := items_length_pos (pyStrip cap)
        rw [List.length_map, List.enum_length]
        omega
      rw [← hparse, heq] at hcm
      exact hdc hcm

/-- Witness for C9 (amended): with the repository's default, a two-item
RETURN clause produces a schema different from the default. -/
theorem infer_schema_shape_witness :
    parse_return_clause ("MATCH (n) RETURN a, b".toList) ("(result agtype)".toList) ≠
      "(result agtype)".toList :=
  ((infer_schema_shape ("MATCH (n) RETURN a, b".toList)
      ("(result agtype)".toList)).2 (by decide)).mpr
    ⟨"a, b".toList, by decide, by decide⟩

/-- C1: when the inferred column definition differs from the default and
the first bridge invocation fails, the coordinator rolls back, retries
exactly once with the default column definition and the same sanitized
query text, and performs no further invocation; the outcome is that of
the retry. -/
theorem retry_once_with_default {ρ : Type} (bridge : Bridge ρ) (q : List Char)
    (s : Settings) (e : List Char)
    (hclean : cleanOf q ≠ [])
    (hcol : colDefOf q s ≠ s.default_cols)
    (hfail : bridge (sqlOf q s) = .error e) :
    execute_single_cypher_statement bridge q s =
      ((match bridge (sqlDefOf q s) with
        | .ok rows => .success rows
        | .error e2 => .failure ("Cypher error: ".toList ++ firstLine e2)),
       [.call (sqlOf q s), .rollback, .call (sqlDefOf q s)] ++
         (match bridge (sqlDefOf q s) with
          | .ok _ => [Ev.commit]
          | .error _ => [Ev.rollback])) := by
  unfold cleanOf at hclean
  unfold colDefOf cleanOf at hcol
  unfold sqlOf colDefOf cleanOf at hfail
  unfold sqlOf sqlDefOf colDefOf cleanOf
  cases hb : bridge (mkSql s.graph_name
      (sanitize_llm_query_maybe_wrapped (preprocess_cypher_query q)) s.default_cols) with
  | ok rows => simp [execute_single_cypher_statement, hclean, hcol, hfail, hb]
  | error e2 => simp [execute_single_cypher_statement, hclean, hcol, hfail, hb]

/-- Witness for C1: a mocked bridge failing once for the inferred
two-column schema and succeeding for the default schema gives `Success`
with exactly two invocations. -/
theorem retry_once_with_default_witness :
    cleanOf q1 ≠ [] ∧ colDefOf q1 sFix ≠ sFix.default_cols ∧
    bridge1 (sqlOf q1 sFix) = .error ("schema mismatch".toList) ∧
    execute_single_cypher_statement bridge1 q1 sFix =
      (.success [42],
       [.call (sqlOf q1 sFix), .rollback, .call (sqlDefOf q1 sFix), .commit]) := by
  refine ⟨by decide, by decide, by decide, ?_⟩
  have h := retry_once_with_default bridge1 q1 sFix ("schema mismatch".toList)
    (by decide) (by decide) (by decide)
  rw [h]
  decide

theorem smartColumnsLoop_all_ok {ρ : Type} (bridge : Bridge ρ) (s : Settings)
    (l : List (List Char)) :
    ∀ acc log,
      (∀ st ∈ l, isSuccessO (execute_single_cypher_statement bridge st s).1 = true) →
      smartColumnsLoop bridge s l acc log =
        (.success (acc ++ l.flatMap (rowsOf bridge s)),
         log ++ l.flatMap (evOf bridge s)) := by
  induction l with
  | nil =>
    intro acc log _
    simp [smartColumnsLoop]
  | cons st rest ih =>
    intro acc log h
    have hst := h st (List.mem_cons_self _ _)
    cases hres : execute_single_cypher_statement bridge st s with
    | mk outcome ev =>
      cases outcome with
      | success rows =>
        have hrows : rowsOf bridge s st = rows := by unfold rowsOf; rw [hres]
        have hev : evOf bridge s st = ev := by unfold evOf; rw [hres]
        simp only [smartColumnsLoop, hres]
        rw [ih (acc ++ rows) (log ++ ev) (fun p hp => h p (List.mem_cons_of_mem _ hp))]
        simp [hrows, hev, List.append_assoc]
      | failure msg =>
        rw [hres] at hst
        simp [isSuccessO] at hst

theorem smartColumnsLoop_first_fail {ρ : Type} (bridge : Bridge ρ) (s : Settings)
    (st : List Char) (post : List (List Char)) (msg : List Char) (ev : List Ev)
    (hst : execute_single_cypher_statement bridge st s = (.failure msg, ev))
    (pre : List (List Char)) :
    ∀ acc log,
      (∀ p ∈ pre, isSuccessO (execute_single_cypher_statement bridge p s).1 = true) →
      smartColumnsLoop bridge s (pre ++ st :: post) acc log =
        (.failure msg, log ++ pre.flatMap (evOf bridge s) ++ ev) := by
  induction pre with
  | nil =>
    intro acc log _
    simp only [List.nil_append, smartColumnsLoop, hst]
    simp
  | cons p0 ps ih =>
    intro acc log h
    have hp0 := h p0 (List.mem_cons_self _ _)
    cases hres : execute_single_cypher_statement bridge p0 s with
    | mk outcome ev0 =>
      cases outcome with
      | success rows =>
        have hev : evOf bridge s p0 = ev0 := by unfold evOf; rw [hres]
        simp only [List.cons_append, smartColumnsLoop, hres, List.append_eq]
        rw [ih (acc ++ rows) (log ++ ev0) (fun p hp => h p (List.mem_cons_of_mem _ hp))]
        simp [hev, List.append_assoc]
      | failure m =>
        rw [hres] at hp0
        simp [isSuccessO] at hp0

/-- C2: a batch of two or more statements runs them strictly in order and
fails fast: if every statement succeeds the batch returns `Success` with
the rows accumulated in arrival order, and on the first failing statement
that `Failure` is the batch outcome and no later statement reaches the
bridge (the event log stops at the failing statement). -/
theorem batch_fail_fast {ρ : Type} (bridge : Bridge ρ) (q : List Char) (s : Settings)
    (hlen : 2 ≤ (split_cypher_statements q).length) :
    ((∀ st ∈ split_cypher_statements q,
        isSuccessO (execute_single_cypher_statement bridge st s).1 = true) →
      execute_cypher_with_smart_columns bridge q s =
        (.success ((split_cypher_statements q).flatMap (rowsOf bridge s)),
         (split_cypher_statements q).flatMap (evOf bridge s))) ∧
    (∀ pre st post msg ev,
      split_cypher_statements q = pre ++ st :: post →
      (∀ p ∈ pre, isSuccessO (execute_single_cypher_statement bridge p s).1 = true) →
      execute_single_cypher_statement bridge st s = (.failure msg, ev) →
      execute_cypher_with_smart_columns bridge q s =
        (.failure msg, pre.flatMap (evOf bridge s) ++ ev)) := by
  have hloop : execute_cypher_with_smart_columns bridge q s =
      smartColumnsLoop bridge s (split_cypher_statements q) [] [] := by
    cases hs : split_cypher_statements q with
    | nil => rw [hs] at hlen; simp at hlen
    | cons a t =>
      cases t with
      | nil => rw [hs] at hlen; simp at hlen
      | cons b r => simp only [execute_cypher_with_smart_columns, hs]
  constructor
  · intro h
    rw [hloop, smartColumnsLoop_all_ok bridge s _ [] [] h]
    simp
  · intro pre st post msg ev hsplit hpre hst
    rw [hloop, hsplit, smartColumnsLoop_first_fail bridge s st post msg ev hst pre [] [] hpre]
    simp

/-- Witness for C2: with a three-statement batch and a bridge failing on
the second statement, the batch fails and the log shows invocations for
the first two statements only. -/
theorem batch_fail_fast_witness :
    2 ≤ (split_cypher_statements qB).length ∧
    execute_cypher_with_smart_columns bridgeB qB sFix =
      (.failure ("Cypher error: boom on B".toList),
       ["CREATE (a)".toList].flatMap (evOf bridgeB sFix) ++
         [.call (sqlOf stB sFix), .rollback]) := by
  refine ⟨by decide, ?_⟩
  exact (batch_fail_fast bridgeB qB sFix (by decide)).2
    ["CREATE (a)".toList] stB ["CREATE (c)".toList]
    ("Cypher error: boom on B".toList) [.call (sqlOf stB sFix), .rollback]
    (by decide) (by decide) (by decide)

/-- C8, counterexample: `q8 = "cypher(a$$;$$)"` sanitizes to the empty
string (its dollar-quoted body is `;`), yet the batch splitter cuts it at
the inner `;` into two non-empty pieces, so `executeBatch` does invoke
the bridge. -/
theorem batch_calls_bridge_on_empty_sanitize_cex :
    cleanOf q8 = [] ∧
    callsOf (execute_cypher_with_smart_columns okBridge q8 sFix).2 ≠ [] :=
  ⟨by decide, by decide⟩

/-- C8, amended: any input that sanitizes to the empty string makes
`executeStatement` return `Success([])` with zero bridge invocations, and
any input consisting only of whitespace and terminators does the same for
`executeBatch`. -/
theorem empty_sanitize_no_bridge {ρ : Type} (bridge : Bridge ρ) (x : List Char)
    (s : Settings) :
    (cleanOf x = [] → execute_single_cypher_statement bridge x s = (.success [], [])) ∧
    ((∀ c ∈ x, pyIsSpace c = true ∨ c = ';') →
      execute_cypher_with_smart_columns bridge x s = (.success [], [])) := by
  constructor
  · intro h
    unfold cleanOf at h
    simp [execute_single_cypher_statement, h]
  · intro h
    have hs := split_all_ws h
    simp [execute_cypher_with_smart_columns, hs]

/-- Witness for C8 (amended), on a whitespace-and-terminators input. -/
theorem empty_sanitize_no_bridge_witness :
    execute_single_cypher_statement okBridge (" ;; ".toList) sFix = (.success [], []) ∧
    execute_cypher_with_smart_columns okBridge (" ;; ".toList) sFix = (.success [], []) :=
  ⟨(empty_sanitize_no_bridge okBridge (" ;; ".toList) sFix).1 (by decide),
   (empty_sanitize_no_bridge okBridge (" ;; ".toList) sFix).2 (by decide)⟩

end Tristore
